import Mathlib

/-!
Shallow embedding of the model-synchronization core of the MyShell-TTS-Subnet
repository: `constants/__init__.py` and `model/model_updater.py`.

External collaborators (metadata store, remote store, local store, the hash
primitive) are injected through an `ExtEnv` record of functions.  State
(the tracker and the minimum-block floor) is threaded explicitly.  Python
exceptions are values of `Err`; a raised exception leaves the state at its
value at the raise point.
-/

namespace ModelSync

/-- Structure `CompetitionParameters` from `constants/__init__.py`:
class defining model parameters for a competition. -/
structure CompetitionParameters where
  reward_percentage : Rat
  competition_id : String
deriving DecidableEq, Repr

/-- Constant `ORIGINAL_COMPETITION_ID` from `constants/__init__.py`: default competition ID. -/
def ORIGINAL_COMPETITION_ID : String := "p240"

/-- Constant `COMPETITION_SCHEDULE` from `constants/__init__.py`. -/
def COMPETITION_SCHEDULE : List CompetitionParameters :=
  [{ reward_percentage := 1, competition_id := ORIGINAL_COMPETITION_ID }]

/-- Modelled from the spec: `ArtifactId` (the `id` field of `ModelMetadata`
from the missing `model/data.py`), an identifier `{content_hash, competition_id}`.
The updater reads `id.hash` and reads/writes `id.competition_id`. -/
structure ArtifactId where
  hash : String
  competition_id : String
deriving DecidableEq, Repr

/-- Modelled from the spec: `ModelMetadata` from the missing `model/data.py`:
`{id: ArtifactId, published_at_block: integer}`.  The updater reads
`metadata.block` and `metadata.id`. -/
structure ModelMetadata where
  id : ArtifactId
  block : Nat
deriving DecidableEq, Repr

/-- Modelled from the spec: the retrieved-artifact handle returned by
`remote_store.download_model` (the missing `model/storage` layer); the updater
only reads `model.id.hash`. -/
structure Model where
  id : ArtifactId
deriving DecidableEq, Repr

/-- Python exceptions raised by this core or its collaborators. The
`integrityError` constructor carries exactly the data interpolated into the
`ValueError` message at `model_updater.py` lines 90-92 and 129-131: the hotkey
and the chain metadata. -/
inductive Err where
  | integrityError (hotkey : String) (metadata : ModelMetadata)
  | transferError (msg : String)
  | retrievalError (msg : String)
  | keyError (key : String)
deriving DecidableEq, Repr

/-- Lookup in the tracker's `miner_hotkey_to_model_metadata_dict`
(an association list keyed by hotkey). -/
def dictGet (d : List (String × ModelMetadata)) (k : String) : Option ModelMetadata :=
  match d with
  | [] => none
  | (k', v) :: rest => if k' = k then some v else dictGet rest k

/-- Overwrite-or-insert in the tracker's metadata dict. -/
def dictSet (d : List (String × ModelMetadata)) (k : String) (v : ModelMetadata) :
    List (String × ModelMetadata) :=
  match d with
  | [] => [(k, v)]
  | (k', v') :: rest => if k' = k then (k, v) :: rest else (k', v') :: dictSet rest k v

/-- Modelled from the spec: the `ModelTracker` state (the missing
`model/model_tracker.py`): `last_metadata: mapping participant -> Metadata`
(entries added or overwritten, never removed) and `downloaded: set of
participant` (field names as used by `model_updater.py`). -/
structure ModelTracker where
  miner_hotkey_to_model_metadata_dict : List (String × ModelMetadata)
  model_downloaded : List String
deriving DecidableEq, Repr

/-- Modelled from the spec: `model_tracker.get_model_metadata_for_miner_hotkey`,
returning the tracker's current `last_metadata[participant]` or none. -/
def get_model_metadata_for_miner_hotkey (t : ModelTracker) (hotkey : String) :
    Option ModelMetadata :=
  dictGet t.miner_hotkey_to_model_metadata_dict hotkey

/-- Modelled from the spec: `model_tracker.on_miner_model_updated` — commit the
metadata into the tracker, overwriting any prior value for that participant. -/
def on_miner_model_updated (t : ModelTracker) (hotkey : String) (m : ModelMetadata) :
    ModelTracker :=
  { t with miner_hotkey_to_model_metadata_dict :=
      dictSet t.miner_hotkey_to_model_metadata_dict hotkey m }

/-- Modelled from the spec: `model_tracker.on_miner_model_updated_metadata_only`
— same commit, used by the metadata-only sync. -/
def on_miner_model_updated_metadata_only (t : ModelTracker) (hotkey : String)
    (m : ModelMetadata) : ModelTracker :=
  { t with miner_hotkey_to_model_metadata_dict :=
      dictSet t.miner_hotkey_to_model_metadata_dict hotkey m }

/-- Python `set.add` on `model_tracker.model_downloaded`. -/
def setAdd (s : List String) (k : String) : List String :=
  if k ∈ s then s else k :: s

/-- The `ModelUpdater` instance state: the `min_block` field plus the shared
tracker (`model_updater.py` lines 26-27). -/
structure ModelUpdater where
  min_block : Option Nat
  tracker : ModelTracker
deriving DecidableEq, Repr

/-- Setter `set_min_block` (`model_updater.py` lines 29-30). -/
def set_min_block (u : ModelUpdater) (val : Option Nat) : ModelUpdater :=
  { u with min_block := val }

/-- External collaborators injected into the updater: the metadata store's
`retrieve_model_metadata` (may raise a retrieval error, may return none), the
local store's `get_path`, the remote store's `download_model` (takes the
possibly-absent competition parameters exactly as the Python call sites pass
them; may raise a transfer error), and `get_hash_of_two_strings` from the
missing `model/utils.py` (modelled from the spec as an opaque deterministic
string combiner). -/
structure ExtEnv where
  retrieve_model_metadata : String → Except Err (Option ModelMetadata)
  get_path : String → String
  download_model : ArtifactId → String → Option CompetitionParameters → Except Err Model
  get_hash_of_two_strings : String → String → String

/-- Lookup `get_competition_parameters` (`model_updater.py` lines 32-35):
first schedule entry with the given competition id, else none. -/
def get_competition_parameters (competition_id : String) : Option CompetitionParameters :=
  COMPETITION_SCHEDULE.find? (fun x => x.competition_id = competition_id)

/-- The Python truthiness test `if self.min_block and metadata.block < self.min_block`
(`model_updater.py` lines 53 and 103): `None` and `0` are falsy. -/
def minBlockSkip (min_block : Option Nat) (block : Nat) : Bool :=
  match min_block with
  | none => false
  | some b => b ≠ 0 && block < b

/-- The in-place backwards-compatibility rewrite (`model_updater.py`
lines 57-59 and 107-109): an empty competition id (falsy string) is overwritten
with `ORIGINAL_COMPETITION_ID` on the fetched metadata object; this value is
the state of that object after the two lines run. -/
def compatRewrite (m : ModelMetadata) : ModelMetadata :=
  if m.id.competition_id = "" then
    { m with id := { m.id with competition_id := ORIGINAL_COMPETITION_ID } }
  else m

/-- Result of one Python call into the updater: the value returned or the
exception raised. -/
inductive Outcome where
  | ok (b : Bool)
  | err (e : Err)
deriving DecidableEq, Repr

/-- Instrumented result of one sync attempt: the outcome, the final updater
state, the final value of the fetched metadata object (recording the effect of
the in-place rewrite on it; none when no metadata object was obtained), and
whether `download_model` was invoked. -/
structure SyncRun where
  outcome : Outcome
  updater : ModelUpdater
  fetchedFinal : Option ModelMetadata
  didDownload : Bool
deriving DecidableEq, Repr

/-- Embedding of `sync_model` (`model_updater.py` lines 96-135): update the local model for
a hotkey if out of sync and return whether it was updated. -/
def sync_model (env : ExtEnv) (u : ModelUpdater) (hotkey : String) : SyncRun :=
  match env.retrieve_model_metadata hotkey with
  | .error e => ⟨.err e, u, none, false⟩
  | .ok none => ⟨.ok false, u, none, false⟩
  | .ok (some metadata₀) =>
    if minBlockSkip u.min_block metadata₀.block then
      ⟨.ok false, u, some metadata₀, false⟩
    else
      let metadata := compatRewrite metadata₀
      match get_competition_parameters metadata.id.competition_id with
      | none => ⟨.ok false, u, some metadata, false⟩
      | some parameters =>
        let tracker_model_metadata := get_model_metadata_for_miner_hotkey u.tracker hotkey
        if some metadata = tracker_model_metadata then
          ⟨.ok false, u, some metadata, false⟩
        else
          let path := env.get_path hotkey
          match env.download_model metadata.id path (some parameters) with
          | .error e => ⟨.err e, u, some metadata, true⟩
          | .ok model =>
            let hash_matches_directly := model.id.hash = metadata.id.hash
            let hash_with_hotkey := env.get_hash_of_two_strings model.id.hash hotkey
            if ¬ (hash_matches_directly ∨ hash_with_hotkey = metadata.id.hash) then
              ⟨.err (.integrityError hotkey metadata), u, some metadata, true⟩
            else
              ⟨.ok true,
               { u with tracker := on_miner_model_updated u.tracker hotkey metadata },
               some metadata, true⟩

/-- Embedding of `sync_model_metadata_only` (`model_updater.py` lines 46-67): update
metadata only for a hotkey if out of sync and return whether it was updated. -/
def sync_model_metadata_only (env : ExtEnv) (u : ModelUpdater) (hotkey : String) : SyncRun :=
  match env.retrieve_model_metadata hotkey with
  | .error e => ⟨.err e, u, none, false⟩
  | .ok none => ⟨.ok false, u, none, false⟩
  | .ok (some metadata₀) =>
    if minBlockSkip u.min_block metadata₀.block then
      ⟨.ok false, u, some metadata₀, false⟩
    else
      let metadata := compatRewrite metadata₀
      match get_competition_parameters metadata.id.competition_id with
      | none => ⟨.ok false, u, some metadata, false⟩
      | some _parameters =>
        ⟨.ok true,
         { u with tracker := on_miner_model_updated_metadata_only u.tracker hotkey metadata },
         some metadata, false⟩

/-- Embedding of `ensure_model_downloaded` (`model_updater.py` lines 69-94): ensure that the
model for the given hotkey is downloaded.  Indexing the tracker dict with a
missing hotkey (line 75) raises a Python `KeyError`.  The competition-parameter
lookup result is passed to `download_model` without a none-check, exactly as in
the source (lines 76-80). -/
def ensure_model_downloaded (env : ExtEnv) (u : ModelUpdater) (hotkey : String) :
    Except Err Unit × ModelUpdater :=
  if hotkey ∈ u.tracker.model_downloaded then (.ok (), u)
  else
    match dictGet u.tracker.miner_hotkey_to_model_metadata_dict hotkey with
    | none => (.error (.keyError hotkey), u)
    | some metadata =>
      let parameters := get_competition_parameters metadata.id.competition_id
      let path := env.get_path hotkey
      match env.download_model metadata.id path parameters with
      | .error e => (.error e, u)
      | .ok model =>
        if model.id.hash ≠ metadata.id.hash then
          let hash_with_hotkey := env.get_hash_of_two_strings model.id.hash hotkey
          if hash_with_hotkey ≠ metadata.id.hash then
            (.error (.integrityError hotkey metadata), u)
          else
            (.ok (), { u with tracker :=
              { u.tracker with model_downloaded := setAdd u.tracker.model_downloaded hotkey } })
        else
          (.ok (), { u with tracker :=
            { u.tracker with model_downloaded := setAdd u.tracker.model_downloaded hotkey } })

/-- Embedding of `sync_models` (`model_updater.py` lines 41-44): one `sync_model` attempt
per hotkey, each exception captured as that slot's outcome
(`asyncio.gather(..., return_exceptions=True)`), outcomes in input order. -/
def sync_models (env : ExtEnv) (u : ModelUpdater) : List String → List Outcome × ModelUpdater
  | [] => ([], u)
  | hotkey :: rest =>
    let r := sync_model env u hotkey
    let rest' := sync_models env r.updater rest
    (r.outcome :: rest'.1, rest'.2)

/-- Lock and retrieval events, for reasoning about the lock discipline of
`ensure_model_downloaded`. -/
inductive Ev where
  | lockAcquire
  | lockRelease
  | downloadStart
  | downloadEnd
deriving DecidableEq, Repr

/-- Lock/retrieval event trace of one `ensure_model_downloaded` call
(`model_updater.py` lines 69-94).  The whole body runs inside
`with self.model_tracker.lock:` (line 71), which acquires on entry and
releases on every exit (early return, `KeyError`, transfer or integrity
error, success); the remote retrieval `await ... download_model` (line 80)
is bracketed by `downloadStart`/`downloadEnd` and is reached exactly when the
hotkey is not yet downloaded and has a tracked metadata entry. -/
def ensure_model_downloaded_events (u : ModelUpdater) (hotkey : String) : List Ev :=
  Ev.lockAcquire ::
    (if hotkey ∈ u.tracker.model_downloaded then []
     else
       match dictGet u.tracker.miner_hotkey_to_model_metadata_dict hotkey with
       | none => []
       | some _ => [Ev.downloadStart, Ev.downloadEnd])
    ++ [Ev.lockRelease]

/-- An interleaving of two event traces, each event tagged with the trace
(`true` for the first) it came from; per-trace order is preserved. -/
inductive Interleave : List Ev → List Ev → List (Bool × Ev) → Prop
  | nil : Interleave [] [] []
  | left {e xs ys zs} : Interleave xs ys zs → Interleave (e :: xs) ys ((true, e) :: zs)
  | right {e xs ys zs} : Interleave xs ys zs → Interleave xs (e :: ys) ((false, e) :: zs)

/-- Mutual-exclusion semantics of the single shared tracker lock over a tagged
trace: the state is the holder (`none` when free); `lockAcquire` requires the
lock free, `lockRelease` requires the acting trace to hold it. -/
def lockOK : Option Bool → List (Bool × Ev) → Prop
  | _, [] => True
  | h, (tag, Ev.lockAcquire) :: rest => h = none ∧ lockOK (some tag) rest
  | h, (tag, Ev.lockRelease) :: rest => h = some tag ∧ lockOK none rest
  | h, (_, Ev.downloadStart) :: rest => lockOK h rest
  | h, (_, Ev.downloadEnd) :: rest => lockOK h rest

/- Concrete fixtures used by witnesses and counterexamples. -/

/-- Test stand-in for the opaque `get_hash_of_two_strings` primitive. -/
def hashT (a b : String) : String := a ++ "|" ++ b

/-- Test artifact id in the default competition. -/
def aidT : ArtifactId := { hash := "h1", competition_id := "p240" }

/-- Test metadata in the default competition. -/
def mT : ModelMetadata := { id := aidT, block := 5 }

/-- Test metadata with an empty (pre-competition-era) competition id. -/
def mEmptyT : ModelMetadata := { id := { hash := "h1", competition_id := "" }, block := 5 }

/-- Empty tracker. -/
def trackerT : ModelTracker :=
  { miner_hotkey_to_model_metadata_dict := [], model_downloaded := [] }

/-- Fresh updater: no minimum-block floor, empty tracker. -/
def updaterT : ModelUpdater := { min_block := none, tracker := trackerT }

/-- Environment whose download matches the claimed hash. -/
def envOkT : ExtEnv :=
  { retrieve_model_metadata := fun _ => .ok (some mT)
    get_path := fun h => h
    download_model := fun _ _ _ => .ok { id := aidT }
    get_hash_of_two_strings := hashT }

/-- Environment whose download observes hash "h2" (integrity failure). -/
def envBad2T : ExtEnv :=
  { retrieve_model_metadata := fun _ => .ok (some mT)
    get_path := fun h => h
    download_model := fun _ _ _ => .ok { id := { hash := "h2", competition_id := "p240" } }
    get_hash_of_two_strings := hashT }

/-- Environment whose download observes hash "h3" (integrity failure). -/
def envBad3T : ExtEnv :=
  { retrieve_model_metadata := fun _ => .ok (some mT)
    get_path := fun h => h
    download_model := fun _ _ _ => .ok { id := { hash := "h3", competition_id := "p240" } }
    get_hash_of_two_strings := hashT }

/-- Environment where the download for participant "b" raises a transfer
error and every other participant syncs cleanly. -/
def envBatchT : ExtEnv :=
  { retrieve_model_metadata := fun _ => .ok (some mT)
    get_path := fun h => h
    download_model := fun _ path _ =>
      if path = "b" then .error (.transferError "boom") else .ok { id := aidT }
    get_hash_of_two_strings := hashT }

/-- Environment fetching metadata with an empty competition id. -/
def envEmptyT : ExtEnv :=
  { retrieve_model_metadata := fun _ => .ok (some mEmptyT)
    get_path := fun h => h
    download_model := fun _ _ _ => .ok { id := aidT }
    get_hash_of_two_strings := hashT }

/-- Environment fetching the same metadata but with the default competition id
written out explicitly. -/
def envDefaultT : ExtEnv :=
  { retrieve_model_metadata := fun _ => .ok (some mT)
    get_path := fun h => h
    download_model := fun _ _ _ => .ok { id := aidT }
    get_hash_of_two_strings := hashT }

/-- Tracker with one committed entry for "alice". -/
def trackerP : ModelTracker :=
  { miner_hotkey_to_model_metadata_dict := [("alice", mT)], model_downloaded := [] }

/-- Updater whose tracker already tracks "alice" (as after a successful sync). -/
def updaterP : ModelUpdater := { min_block := none, tracker := trackerP }

/-- The committed-by-this-core tracker invariant: every tracked metadata entry
has a competition id that is non-empty and resolves in the fixed schedule. -/
def trackerInv (t : ModelTracker) : Prop :=
  ∀ hk m, dictGet t.miner_hotkey_to_model_metadata_dict hk = some m →
    m.id.competition_id ≠ "" ∧ (get_competition_parameters m.id.competition_id).isSome

/-! ## Helper lemmas -/

theorem dictGet_dictSet_self (d : List (String × ModelMetadata)) (k : String)
    (v : ModelMetadata) : dictGet (dictSet d k v) k = some v := by
  induction d with
  | nil => simp [dictGet, dictSet]
  | cons hd tl ih =>
    obtain ⟨k', v'⟩ := hd
    by_cases h : k' = k
    · simp [dictGet, dictSet, h]
    · simp [dictGet, dictSet, h, ih]

theorem dictGet_dictSet_cases {d : List (String × ModelMetadata)} {k hk : String}
    {v m : ModelMetadata} (h : dictGet (dictSet d k v) hk = some m) :
    m = v ∨ dictGet d hk = some m := by
  induction d with
  | nil =>
    simp [dictGet, dictSet] at h
    exact Or.inl h.2.symm
  | cons hd tl ih =>
    obtain ⟨k', v'⟩ := hd
    by_cases hkk : k' = k
    · subst hkk
      simp [dictSet] at h
      by_cases hk' : k' = hk
      · subst hk'
        simp [dictGet] at h ⊢
        exact Or.inl h.symm
      · simp [dictGet, hk'] at h ⊢
        exact Or.inr h
    · simp [dictSet, hkk] at h
      by_cases hk' : k' = hk
      · subst hk'
        simp [dictGet] at h ⊢
        exact Or.inr h
      · simp [dictGet, hk'] at h ⊢
        exact ih h

theorem get_competition_parameters_id {c : String} {p : CompetitionParameters}
    (h : get_competition_parameters c = some p) : c = ORIGINAL_COMPETITION_ID := by
  simp [get_competition_parameters, COMPETITION_SCHEDULE, List.find?] at h
  split at h
  · next hc => exact (of_decide_eq_true hc).symm
  · exact absurd h (by simp)

/-! ## Claim theorems -/

/-- C8: calling `ensure_model_downloaded` for a participant that is neither in
the downloaded set nor in the tracker's metadata dict fails fast with an error
(the Python `KeyError` of the dict indexing at line 75), not a normal no-op
result, and leaves the updater state unchanged. -/
theorem C8_ensure_missing_metadata_fails_fast (env : ExtEnv) (u : ModelUpdater)
    (hotkey : String)
    (hnd : hotkey ∉ u.tracker.model_downloaded)
    (hnm : dictGet u.tracker.miner_hotkey_to_model_metadata_dict hotkey = none) :
    ensure_model_downloaded env u hotkey = (.error (.keyError hotkey), u) := by
  simp [ensure_model_downloaded, hnd, hnm]

theorem C8_witness :
    ensure_model_downloaded envOkT updaterT "alice" = (.error (.keyError "alice"), updaterT) :=
  C8_ensure_missing_metadata_fails_fast envOkT updaterT "alice" (by decide) rfl

/-- C1: whenever `sync_model` reaches the integrity check (metadata fetched,
not filtered by the minimum-block floor or the competition lookup, differing
from the tracker's current entry, and the download returned a model), the
integrity error is raised iff the observed hash differs from the expected hash
and the salted hash also differs; when raised the updater (hence the tracker)
is unchanged, and otherwise the new metadata is committed and true returned. -/
theorem C1_sync_model_integrity_check (env : ExtEnv) (u : ModelUpdater) (hotkey : String)
    (m₀ : ModelMetadata) (p : CompetitionParameters) (model : Model)
    (hfetch : env.retrieve_model_metadata hotkey = .ok (some m₀))
    (hblock : minBlockSkip u.min_block m₀.block = false)
    (hparams : get_competition_parameters (compatRewrite m₀).id.competition_id = some p)
    (hdiff : some (compatRewrite m₀) ≠ get_model_metadata_for_miner_hotkey u.tracker hotkey)
    (hdl : env.download_model (compatRewrite m₀).id (env.get_path hotkey) (some p) = .ok model) :
    ((sync_model env u hotkey).outcome = .err (.integrityError hotkey (compatRewrite m₀)) ↔
      (¬ model.id.hash = (compatRewrite m₀).id.hash ∧
       ¬ env.get_hash_of_two_strings model.id.hash hotkey = (compatRewrite m₀).id.hash)) ∧
    ((¬ model.id.hash = (compatRewrite m₀).id.hash ∧
      ¬ env.get_hash_of_two_strings model.id.hash hotkey = (compatRewrite m₀).id.hash) →
      (sync_model env u hotkey).updater = u) ∧
    (¬ (¬ model.id.hash = (compatRewrite m₀).id.hash ∧
        ¬ env.get_hash_of_two_strings model.id.hash hotkey = (compatRewrite m₀).id.hash) →
      (sync_model env u hotkey).outcome = .ok true ∧
      (sync_model env u hotkey).updater =
        { u with tracker := on_miner_model_updated u.tracker hotkey (compatRewrite m₀) }) := by
  have hrun : sync_model env u hotkey =
      if ¬ (model.id.hash = (compatRewrite m₀).id.hash ∨
            env.get_hash_of_two_strings model.id.hash hotkey = (compatRewrite m₀).id.hash) then
        ⟨.err (.integrityError hotkey (compatRewrite m₀)), u, some (compatRewrite m₀), true⟩
      else
        ⟨.ok true, { u with tracker := on_miner_model_updated u.tracker hotkey (compatRewrite m₀) },
         some (compatRewrite m₀), true⟩ := by
    unfold sync_model
    rw [hfetch]
    simp only [hblock, Bool.false_eq_true, if_false, hparams, hdl]
    rw [if_neg hdiff]
  by_cases hfail : (¬ model.id.hash = (compatRewrite m₀).id.hash ∧
      ¬ env.get_hash_of_two_strings model.id.hash hotkey = (compatRewrite m₀).id.hash)
  · have hcond : ¬ (model.id.hash = (compatRewrite m₀).id.hash ∨
        env.get_hash_of_two_strings model.id.hash hotkey = (compatRewrite m₀).id.hash) :=
      not_or.mpr hfail
    rw [hrun, if_pos hcond]
    exact ⟨by simp [hfail], fun _ => rfl, fun h => absurd hfail h⟩
  · have hcond : ¬ ¬ (model.id.hash = (compatRewrite m₀).id.hash ∨
        env.get_hash_of_two_strings model.id.hash hotkey = (compatRewrite m₀).id.hash) :=
      fun h => hfail (not_or.mp h)
    rw [hrun, if_neg hcond]
    refine ⟨?_, fun h => absurd h hfail, fun _ => ⟨rfl, rfl⟩⟩
    simp only [Outcome.ok.injEq]
    constructor
    · intro h; cases h
    · intro h; exact absurd h hfail

theorem C1_witness :
    (sync_model envOkT updaterT "alice").outcome = .ok true ∧
    (sync_model envOkT updaterT "alice").updater =
      { updaterT with tracker := on_miner_model_updated updaterT.tracker "alice" (compatRewrite mT) } :=
  (C1_sync_model_integrity_check envOkT updaterT "alice" mT
      { reward_percentage := 1, competition_id := "p240" } { id := aidT }
      rfl rfl rfl (by decide) rfl).2.2 (by decide)

/-- C2: if a first `sync_model` call for a hotkey succeeds (returns true),
then a second call against the same unchanged environment returns false,
commits nothing (the updater is unchanged), and performs no download. -/
theorem C2_no_op_stability (env : ExtEnv) (u : ModelUpdater) (hotkey : String)
    (h1 : (sync_model env u hotkey).outcome = .ok true) :
    (sync_model env (sync_model env u hotkey).updater hotkey).outcome = .ok false ∧
    (sync_model env (sync_model env u hotkey).updater hotkey).updater =
      (sync_model env u hotkey).updater ∧
    (sync_model env (sync_model env u hotkey).updater hotkey).didDownload = false := by
  cases hfetch : env.retrieve_model_metadata hotkey with
  | error e => simp [sync_model, hfetch] at h1
  | ok o =>
    cases o with
    | none => simp [sync_model, hfetch] at h1
    | some m₀ =>
      cases hskip : minBlockSkip u.min_block m₀.block with
      | true => simp [sync_model, hfetch, hskip] at h1
      | false =>
        cases hp : get_competition_parameters (compatRewrite m₀).id.competition_id with
        | none => simp [sync_model, hfetch, hskip, hp] at h1
        | some p =>
          by_cases hdiff : some (compatRewrite m₀) =
              get_model_metadata_for_miner_hotkey u.tracker hotkey
          · simp [sync_model, hfetch, hskip, hp, hdiff] at h1
          · cases hdl : env.download_model (compatRewrite m₀).id (env.get_path hotkey) (some p) with
            | error e => simp [sync_model, hfetch, hskip, hp, hdiff, hdl] at h1
            | ok model =>
              by_cases hint : ¬ (model.id.hash = (compatRewrite m₀).id.hash ∨
                  env.get_hash_of_two_strings model.id.hash hotkey = (compatRewrite m₀).id.hash)
              · simp [sync_model, hfetch, hskip, hp, hdiff, hdl, hint] at h1
              · have hu' : (sync_model env u hotkey).updater =
                    { u with tracker := on_miner_model_updated u.tracker hotkey (compatRewrite m₀) } := by
                  simp [sync_model, hfetch, hskip, hp, hdiff, hdl, hint]
                have htr : get_model_metadata_for_miner_hotkey
                    (on_miner_model_updated u.tracker hotkey (compatRewrite m₀)) hotkey =
                    some (compatRewrite m₀) := by
                  simp [get_model_metadata_for_miner_hotkey, on_miner_model_updated,
                    dictGet_dictSet_self]
                rw [hu']
                simp [sync_model, hfetch, hskip, hp, htr]

theorem C2_witness :
    ((sync_model envOkT (sync_model envOkT updaterT "alice").updater "alice").outcome = .ok false ∧
     (sync_model envOkT (sync_model envOkT updaterT "alice").updater "alice").updater =
       (sync_model envOkT updaterT "alice").updater ∧
     (sync_model envOkT (sync_model envOkT updaterT "alice").updater "alice").didDownload = false) ∧
    (sync_model envOkT updaterT "alice").outcome = .ok true :=
  ⟨C2_no_op_stability envOkT updaterT "alice" (by decide), by decide⟩

/-- C6: with a minimum-block floor B configured, both sync operations return
false and leave the updater untouched whenever the fetched metadata's block is
strictly below B; metadata whose block equals B is not filtered by the floor:
the call behaves (in outcome, tracker state and download activity) exactly as
it would with no floor configured. -/
theorem C6_min_block_floor (env : ExtEnv) (u : ModelUpdater) (hotkey : String)
    (B : Nat) (m₀ : ModelMetadata)
    (hmin : u.min_block = some B)
    (hfetch : env.retrieve_model_metadata hotkey = .ok (some m₀)) :
    (m₀.block < B →
      sync_model env u hotkey = ⟨.ok false, u, some m₀, false⟩ ∧
      sync_model_metadata_only env u hotkey = ⟨.ok false, u, some m₀, false⟩) ∧
    (m₀.block = B →
      ((sync_model env u hotkey).outcome =
         (sync_model env (set_min_block u none) hotkey).outcome ∧
       (sync_model env u hotkey).updater.tracker =
         (sync_model env (set_min_block u none) hotkey).updater.tracker ∧
       (sync_model env u hotkey).didDownload =
         (sync_model env (set_min_block u none) hotkey).didDownload) ∧
      ((sync_model_metadata_only env u hotkey).outcome =
         (sync_model_metadata_only env (set_min_block u none) hotkey).outcome ∧
       (sync_model_metadata_only env u hotkey).updater.tracker =
         (sync_model_metadata_only env (set_min_block u none) hotkey).updater.tracker)) := by
  constructor
  · intro hlt
    have hskip : minBlockSkip u.min_block m₀.block = true := by
      rw [hmin]
      simp [minBlockSkip, hlt]
      omega
    constructor
    · simp [sync_model, hfetch, hskip]
    · simp [sync_model_metadata_only, hfetch, hskip]
  · intro heq
    have hskip : minBlockSkip u.min_block m₀.block = false := by
      rw [hmin, heq]
      simp [minBlockSkip]
    have hskipn : minBlockSkip none m₀.block = false := rfl
    constructor
    · simp only [sync_model, hfetch, set_min_block, hskip, hskipn,
        Bool.false_eq_true, if_false]
      cases hp : get_competition_parameters (compatRewrite m₀).id.competition_id with
      | none => exact ⟨rfl, rfl, rfl⟩
      | some p =>
        by_cases hdiff : some (compatRewrite m₀) =
            get_model_metadata_for_miner_hotkey u.tracker hotkey
        · simp [hdiff]
        · simp only [if_neg hdiff]
          cases hdl : env.download_model (compatRewrite m₀).id (env.get_path hotkey) (some p) with
          | error e => exact ⟨rfl, rfl, rfl⟩
          | ok model =>
            by_cases hint : ¬ (model.id.hash = (compatRewrite m₀).id.hash ∨
                env.get_hash_of_two_strings model.id.hash hotkey = (compatRewrite m₀).id.hash)
            · simp [hint]
            · simp [hint]
    · simp only [sync_model_metadata_only, hfetch, set_min_block, hskip, hskipn,
        Bool.false_eq_true, if_false]
      cases hp : get_competition_parameters (compatRewrite m₀).id.competition_id with
      | none => exact ⟨rfl, rfl⟩
      | some p => exact ⟨rfl, rfl⟩

theorem C6_witness :
    (sync_model envOkT (set_min_block updaterT (some 6)) "alice" =
      ⟨.ok false, set_min_block updaterT (some 6), some mT, false⟩ ∧
     sync_model_metadata_only envOkT (set_min_block updaterT (some 6)) "alice" =
      ⟨.ok false, set_min_block updaterT (some 6), some mT, false⟩) ∧
    (sync_model envOkT (set_min_block updaterT (some 5)) "alice").outcome =
      (sync_model envOkT (set_min_block (set_min_block updaterT (some 5)) none) "alice").outcome :=
  ⟨(C6_min_block_floor envOkT (set_min_block updaterT (some 6)) "alice" 6 mT rfl rfl).1
      (by decide),
   ((C6_min_block_floor envOkT (set_min_block updaterT (some 5)) "alice" 5 mT rfl rfl).2
      (by decide)).1.1⟩

/-- C7: fetched metadata carrying an empty competition id yields the same
return value and the same final updater state (for both sync operations) as
otherwise-identical metadata explicitly carrying the default competition id. -/
theorem C7_backward_compat_default (env₁ env₂ : ExtEnv) (u : ModelUpdater) (hotkey : String)
    (m₀ : ModelMetadata)
    (hpath : env₁.get_path = env₂.get_path)
    (hdl : env₁.download_model = env₂.download_model)
    (hhash : env₁.get_hash_of_two_strings = env₂.get_hash_of_two_strings)
    (hempty : m₀.id.competition_id = "")
    (hf₁ : env₁.retrieve_model_metadata hotkey = .ok (some m₀))
    (hf₂ : env₂.retrieve_model_metadata hotkey =
      .ok (some { id := { hash := m₀.id.hash, competition_id := ORIGINAL_COMPETITION_ID },
                  block := m₀.block })) :
    ((sync_model env₁ u hotkey).outcome = (sync_model env₂ u hotkey).outcome ∧
     (sync_model env₁ u hotkey).updater = (sync_model env₂ u hotkey).updater) ∧
    ((sync_model_metadata_only env₁ u hotkey).outcome =
       (sync_model_metadata_only env₂ u hotkey).outcome ∧
     (sync_model_metadata_only env₁ u hotkey).updater =
       (sync_model_metadata_only env₂ u hotkey).updater) := by
  have hcr : compatRewrite m₀ =
      { id := { hash := m₀.id.hash, competition_id := ORIGINAL_COMPETITION_ID },
        block := m₀.block } := by
    simp [compatRewrite, hempty]
  have hcr' : compatRewrite
      { id := { hash := m₀.id.hash, competition_id := ORIGINAL_COMPETITION_ID },
        block := m₀.block } =
      { id := { hash := m₀.id.hash, competition_id := ORIGINAL_COMPETITION_ID },
        block := m₀.block } := by
    simp [compatRewrite, ORIGINAL_COMPETITION_ID]
  simp only [sync_model, sync_model_metadata_only, hf₁, hf₂, hcr, hcr', hpath, hdl, hhash]
  constructor
  · cases hskip : minBlockSkip u.min_block m₀.block with
    | true => simp [hskip]
    | false => simp [hskip]
  · cases hskip : minBlockSkip u.min_block m₀.block with
    | true => simp [hskip]
    | false => simp [hskip]

theorem C7_witness :
    ((sync_model envEmptyT updaterT "alice").outcome =
       (sync_model envDefaultT updaterT "alice").outcome ∧
     (sync_model envEmptyT updaterT "alice").updater =
       (sync_model envDefaultT updaterT "alice").updater) ∧
    ((sync_model_metadata_only envEmptyT updaterT "alice").outcome =
       (sync_model_metadata_only envDefaultT updaterT "alice").outcome ∧
     (sync_model_metadata_only envEmptyT updaterT "alice").updater =
       (sync_model_metadata_only envDefaultT updaterT "alice").updater) :=
  C7_backward_compat_default envEmptyT envDefaultT updaterT "alice" mEmptyT
    rfl rfl rfl rfl rfl rfl

/-- C3 counterexample: the claim that the sync operations leave every field of
the fetched metadata value unchanged is false.  With fetched metadata carrying
an empty competition id, the object's value after the call differs from the
fetched value: the backwards-compatibility assignment of
`model_updater.py` lines 58-59 and 108-109 mutates it in place. -/
theorem C3_counterexample_in_place_mutation :
    envEmptyT.retrieve_model_metadata "alice" = .ok (some mEmptyT) ∧
    (sync_model envEmptyT updaterT "alice").fetchedFinal ≠ some mEmptyT ∧
    (sync_model_metadata_only envEmptyT updaterT "alice").fetchedFinal ≠ some mEmptyT := by
  refine ⟨rfl, ?_, ?_⟩ <;> decide

/-- C3 amended: the sync operations change no field of the fetched metadata
object except its ArtifactId's competition id, which is rewritten in place to
the default competition id exactly when it was empty and the metadata passed
the minimum-block filter. -/
theorem C3_amended_in_place_rewrite (env : ExtEnv) (u : ModelUpdater) (hotkey : String)
    (m₀ : ModelMetadata)
    (hfetch : env.retrieve_model_metadata hotkey = .ok (some m₀)) :
    ((sync_model env u hotkey).fetchedFinal =
       some (if minBlockSkip u.min_block m₀.block then m₀ else compatRewrite m₀)) ∧
    ((sync_model_metadata_only env u hotkey).fetchedFinal =
       some (if minBlockSkip u.min_block m₀.block then m₀ else compatRewrite m₀)) ∧
    (compatRewrite m₀).id.hash = m₀.id.hash ∧
    (compatRewrite m₀).block = m₀.block ∧
    (compatRewrite m₀).id.competition_id =
      (if m₀.id.competition_id = "" then ORIGINAL_COMPETITION_ID
       else m₀.id.competition_id) := by
  refine ⟨?_, ?_, ?_, ?_, ?_⟩
  · cases hskip : minBlockSkip u.min_block m₀.block with
    | true => simp [sync_model, hfetch, hskip]
    | false =>
      simp only [sync_model, hfetch, hskip, Bool.false_eq_true, if_false]
      cases hp : get_competition_parameters (compatRewrite m₀).id.competition_id with
      | none => rfl
      | some p =>
        by_cases hdiff : some (compatRewrite m₀) =
            get_model_metadata_for_miner_hotkey u.tracker hotkey
        · simp [hdiff]
        · simp only [if_neg hdiff]
          cases hdl : env.download_model (compatRewrite m₀).id (env.get_path hotkey) (some p) with
          | error e => rfl
          | ok model =>
            by_cases hint : ¬ (model.id.hash = (compatRewrite m₀).id.hash ∨
                env.get_hash_of_two_strings model.id.hash hotkey = (compatRewrite m₀).id.hash)
            · simp [hint]
            · simp [hint]
  · cases hskip : minBlockSkip u.min_block m₀.block with
    | true => simp [sync_model_metadata_only, hfetch, hskip]
    | false =>
      simp only [sync_model_metadata_only, hfetch, hskip, Bool.false_eq_true, if_false]
      cases hp : get_competition_parameters (compatRewrite m₀).id.competition_id with
      | none => rfl
      | some p => rfl
  · by_cases h : m₀.id.competition_id = "" <;> simp [compatRewrite, h]
  · by_cases h : m₀.id.competition_id = "" <;> simp [compatRewrite, h]
  · by_cases h : m₀.id.competition_id = "" <;> simp [compatRewrite, h]

theorem C3_witness :
    (sync_model envEmptyT updaterT "alice").fetchedFinal =
      some (if minBlockSkip updaterT.min_block mEmptyT.block then mEmptyT
            else compatRewrite mEmptyT) :=
  (C3_amended_in_place_rewrite envEmptyT updaterT "alice" mEmptyT rfl).1

/-- C4 counterexample: the claim that the raised integrity error carries the
observed (downloaded) content hash is false.  Two runs that differ only in the
downloaded model's hash ("h2" versus "h3") raise equal error values, so the
observed hash is not recoverable from the error. -/
theorem C4_counterexample_observed_hash_not_carried :
    (sync_model envBad2T updaterT "alice").outcome =
      (sync_model envBad3T updaterT "alice").outcome ∧
    (sync_model envBad2T updaterT "alice").outcome =
      .err (.integrityError "alice" mT) ∧
    envBad2T.download_model mT.id "alice"
        (some { reward_percentage := 1, competition_id := "p240" }) =
      .ok { id := { hash := "h2", competition_id := "p240" } } ∧
    envBad3T.download_model mT.id "alice"
        (some { reward_percentage := 1, competition_id := "p240" }) =
      .ok { id := { hash := "h3", competition_id := "p240" } } := by
  refine ⟨?_, ?_, rfl, rfl⟩ <;> decide

/-- C4 amended: when the two-mode integrity check fails, `sync_model` and
`ensure_model_downloaded` raise an integrity error carrying the participant id
and the claimed chain metadata (hence the expected content hash), but not the
observed hash; `ensure_model_downloaded` additionally leaves the updater
unchanged. -/
theorem C4_amended_integrity_error_payload (env : ExtEnv) (u : ModelUpdater)
    (hotkey : String) :
    (∀ m₀ p model,
      env.retrieve_model_metadata hotkey = .ok (some m₀) →
      minBlockSkip u.min_block m₀.block = false →
      get_competition_parameters (compatRewrite m₀).id.competition_id = some p →
      some (compatRewrite m₀) ≠ get_model_metadata_for_miner_hotkey u.tracker hotkey →
      env.download_model (compatRewrite m₀).id (env.get_path hotkey) (some p) = .ok model →
      ¬ model.id.hash = (compatRewrite m₀).id.hash →
      ¬ env.get_hash_of_two_strings model.id.hash hotkey = (compatRewrite m₀).id.hash →
      (sync_model env u hotkey).outcome = .err (.integrityError hotkey (compatRewrite m₀))) ∧
    (∀ m model,
      hotkey ∉ u.tracker.model_downloaded →
      dictGet u.tracker.miner_hotkey_to_model_metadata_dict hotkey = some m →
      env.download_model m.id (env.get_path hotkey)
        (get_competition_parameters m.id.competition_id) = .ok model →
      ¬ model.id.hash = m.id.hash →
      ¬ env.get_hash_of_two_strings model.id.hash hotkey = m.id.hash →
      ensure_model_downloaded env u hotkey = (.error (.integrityError hotkey m), u)) := by
  constructor
  · intro m₀ p model hfetch hblock hparams hdiff hdl hh1 hh2
    have hint : ¬ (model.id.hash = (compatRewrite m₀).id.hash ∨
        env.get_hash_of_two_strings model.id.hash hotkey = (compatRewrite m₀).id.hash) :=
      not_or.mpr ⟨hh1, hh2⟩
    simp [sync_model, hfetch, hblock, hparams, hdiff, hdl, hint]
  · intro m model hnd hget hdl hh1 hh2
    simp [ensure_model_downloaded, hnd, hget, hdl, hh1, hh2]

theorem C4_witness :
    (sync_model envBad2T updaterT "bob").outcome =
      .err (.integrityError "bob" (compatRewrite mT)) :=
  (C4_amended_integrity_error_payload envBad2T updaterT "bob").1 mT
    { reward_percentage := 1, competition_id := "p240" }
    { id := { hash := "h2", competition_id := "p240" } }
    rfl rfl rfl (by decide) rfl (by decide) (by decide)

/-- C5: the batch operation returns exactly one outcome per input hotkey, in
the same positional order; each slot holds that participant's own `sync_model`
result — the returned boolean or the raised error — so one attempt's failure
never prevents the other attempts, and the batch itself always returns a full
outcome list rather than raising. -/
theorem C5_batch_outcomes_positional (env : ExtEnv) (u : ModelUpdater)
    (hks : List String) :
    (sync_models env u hks).1.length = hks.length ∧
    (∀ (i : Nat) (hk : String), hks[i]? = some hk →
      ∃ u', (sync_models env u hks).1[i]? = some (sync_model env u' hk).outcome) := by
  induction hks generalizing u with
  | nil => simp [sync_models]
  | cons h t ih =>
    refine ⟨?_, ?_⟩
    · simpa [sync_models] using (ih (sync_model env u h).updater).1
    · intro i hk hi
      cases i with
      | zero =>
        refine ⟨u, ?_⟩
        simp at hi
        subst hi
        simp [sync_models]
      | succ n =>
        obtain ⟨u', hu'⟩ := (ih (sync_model env u h).updater).2 n hk (by simpa using hi)
        exact ⟨u', by simpa [sync_models] using hu'⟩

theorem C5_witness :
    ((sync_models envBatchT updaterT ["a", "b", "c"]).1.length = 3 ∧
     ∃ u', (sync_models envBatchT updaterT ["a", "b", "c"]).1[1]? =
       some (sync_model envBatchT u' "b").outcome) ∧
    (sync_models envBatchT updaterT ["a", "b", "c"]).1 =
      [.ok true, .err (.transferError "boom"), .ok true] :=
  ⟨⟨(C5_batch_outcomes_positional envBatchT updaterT ["a", "b", "c"]).1,
    (C5_batch_outcomes_positional envBatchT updaterT ["a", "b", "c"]).2 1 "b" rfl⟩,
   by decide⟩

theorem sync_model_updater_dest (env : ExtEnv) (u : ModelUpdater) (hotkey : String) :
    (sync_model env u hotkey).updater = u ∨
    ∃ m, (get_competition_parameters m.id.competition_id).isSome ∧
      (sync_model env u hotkey).updater =
        { u with tracker := on_miner_model_updated u.tracker hotkey m } := by
  cases hfetch : env.retrieve_model_metadata hotkey with
  | error e => left; simp [sync_model, hfetch]
  | ok o =>
    cases o with
    | none => left; simp [sync_model, hfetch]
    | some m₀ =>
      cases hskip : minBlockSkip u.min_block m₀.block with
      | true => left; simp [sync_model, hfetch, hskip]
      | false =>
        cases hp : get_competition_parameters (compatRewrite m₀).id.competition_id with
        | none => left; simp [sync_model, hfetch, hskip, hp]
        | some p =>
          by_cases hdiff : some (compatRewrite m₀) =
              get_model_metadata_for_miner_hotkey u.tracker hotkey
          · left; simp [sync_model, hfetch, hskip, hp, hdiff]
          · cases hdl : env.download_model (compatRewrite m₀).id (env.get_path hotkey) (some p) with
            | error e => left; simp [sync_model, hfetch, hskip, hp, hdiff, hdl]
            | ok model =>
              by_cases hint : ¬ (model.id.hash = (compatRewrite m₀).id.hash ∨
                  env.get_hash_of_two_strings model.id.hash hotkey = (compatRewrite m₀).id.hash)
              · left; simp [sync_model, hfetch, hskip, hp, hdiff, hdl, hint]
              · right
                exact ⟨compatRewrite m₀, by simp [hp],
                  by simp [sync_model, hfetch, hskip, hp, hdiff, hdl, hint]⟩

theorem sync_model_metadata_only_updater_dest (env : ExtEnv) (u : ModelUpdater)
    (hotkey : String) :
    (sync_model_metadata_only env u hotkey).updater = u ∨
    ∃ m, (get_competition_parameters m.id.competition_id).isSome ∧
      (sync_model_metadata_only env u hotkey).updater =
        { u with tracker := on_miner_model_updated_metadata_only u.tracker hotkey m } := by
  cases hfetch : env.retrieve_model_metadata hotkey with
  | error e => left; simp [sync_model_metadata_only, hfetch]
  | ok o =>
    cases o with
    | none => left; simp [sync_model_metadata_only, hfetch]
    | some m₀ =>
      cases hskip : minBlockSkip u.min_block m₀.block with
      | true => left; simp [sync_model_metadata_only, hfetch, hskip]
      | false =>
        cases hp : get_competition_parameters (compatRewrite m₀).id.competition_id with
        | none => left; simp [sync_model_metadata_only, hfetch, hskip, hp]
        | some p =>
          right
          exact ⟨compatRewrite m₀, by simp [hp],
            by simp [sync_model_metadata_only, hfetch, hskip, hp]⟩

theorem trackerInv_commit {t : ModelTracker} {hotkey : String} {m : ModelMetadata}
    (hinv : trackerInv t)
    (hm : (get_competition_parameters m.id.competition_id).isSome) :
    trackerInv (on_miner_model_updated t hotkey m) := by
  intro hk m' hget
  simp only [on_miner_model_updated] at hget
  cases dictGet_dictSet_cases hget with
  | inl h =>
    subst h
    refine ⟨?_, hm⟩
    obtain ⟨p, hp⟩ := Option.isSome_iff_exists.mp hm
    rw [get_competition_parameters_id hp]
    simp [ORIGINAL_COMPETITION_ID]
  | inr h => exact hinv hk m' h

/-- C9: both sync operations preserve the invariant that every tracked
metadata entry has a non-empty competition id resolving in the fixed schedule
(they only ever commit metadata that passed the competition lookup after the
backwards-compatibility rewrite); consequently, for a tracker populated by
this core, the unchecked competition-parameter lookup inside
`ensure_model_downloaded` never yields none. -/
theorem C9_committed_metadata_competition_resolves (env : ExtEnv) (u : ModelUpdater)
    (hotkey : String) :
    (trackerInv u.tracker → trackerInv (sync_model env u hotkey).updater.tracker) ∧
    (trackerInv u.tracker →
      trackerInv (sync_model_metadata_only env u hotkey).updater.tracker) ∧
    (trackerInv u.tracker →
      ∀ m, dictGet u.tracker.miner_hotkey_to_model_metadata_dict hotkey = some m →
        m.id.competition_id ≠ "" ∧ get_competition_parameters m.id.competition_id ≠ none) := by
  refine ⟨?_, ?_, ?_⟩
  · intro hinv
    cases sync_model_updater_dest env u hotkey with
    | inl h => rw [h]; exact hinv
    | inr h =>
      obtain ⟨m, hm, h⟩ := h
      rw [h]
      exact trackerInv_commit hinv hm
  · intro hinv
    cases sync_model_metadata_only_updater_dest env u hotkey with
    | inl h => rw [h]; exact hinv
    | inr h =>
      obtain ⟨m, hm, h⟩ := h
      rw [h]
      exact trackerInv_commit hinv hm
  · intro hinv m hget
    obtain ⟨h1, h2⟩ := hinv hotkey m hget
    exact ⟨h1, Option.isSome_iff_ne_none.mp h2⟩

theorem C9_witness :
    mT.id.competition_id ≠ "" ∧ get_competition_parameters mT.id.competition_id ≠ none :=
  (C9_committed_metadata_competition_resolves envOkT updaterP "alice").2.2
    (by
      intro hk m h
      simp [updaterP, trackerP, dictGet] at h
      rcases h with ⟨-, hm⟩
      subst hm
      exact ⟨by decide, by decide⟩)
    mT rfl

theorem interleave_nil_left {ys : List Ev} {zs : List (Bool × Ev)}
    (h : Interleave [] ys zs) : zs = ys.map (fun e => (false, e)) := by
  induction ys generalizing zs with
  | nil => cases h; rfl
  | cons y ys ih =>
    cases h with
    | right h' => simp [ih h']

theorem ensure_events_shape (u : ModelUpdater) (hotkey : String) :
    ∃ mid, ensure_model_downloaded_events u hotkey =
        Ev.lockAcquire :: mid ++ [Ev.lockRelease] ∧
      (∀ e ∈ mid, e = Ev.downloadStart ∨ e = Ev.downloadEnd) ∧
      ((hotkey ∉ u.tracker.model_downloaded ∧
        dictGet u.tracker.miner_hotkey_to_model_metadata_dict hotkey ≠ none) →
        Ev.downloadStart ∈ mid ∧ Ev.downloadEnd ∈ mid) := by
  by_cases hd : hotkey ∈ u.tracker.model_downloaded
  · refine ⟨[], by simp [ensure_model_downloaded_events, hd], by simp, ?_⟩
    intro h
    exact absurd hd h.1
  · cases hget : dictGet u.tracker.miner_hotkey_to_model_metadata_dict hotkey with
    | none =>
      refine ⟨[], by simp [ensure_model_downloaded_events, hd, hget], by simp, ?_⟩
      intro h
      exact absurd rfl h.2
    | some m =>
      refine ⟨[Ev.downloadStart, Ev.downloadEnd],
        by simp [ensure_model_downloaded_events, hd, hget], ?_, ?_⟩
      · intro e he
        simp at he
        rcases he with h | h
        · exact Or.inl h
        · exact Or.inr h
      · intro _
        simp

theorem interleave_drain_left {mid : List Ev} {ys' : List Ev} {zs : List (Bool × Ev)}
    (hmid : ∀ e ∈ mid, e ≠ Ev.lockAcquire ∧ e ≠ Ev.lockRelease)
    (hint : Interleave (mid ++ [Ev.lockRelease]) (Ev.lockAcquire :: ys') zs)
    (hok : lockOK (some true) zs) :
    zs = (mid ++ [Ev.lockRelease]).map (fun e => (true, e)) ++
      (Ev.lockAcquire :: ys').map (fun e => (false, e)) := by
  induction mid generalizing zs with
  | nil =>
    cases hint with
    | left h' =>
      simp only [lockOK] at hok
      simp [interleave_nil_left h']
    | right h' =>
      simp only [lockOK] at hok
      exact absurd hok.1 (by simp)
  | cons m mid ih =>
    cases hint with
    | left h' =>
      have hm := hmid m (by simp)
      cases m with
      | lockAcquire => exact absurd rfl hm.1
      | lockRelease => exact absurd rfl hm.2
      | downloadStart =>
        simp only [lockOK] at hok
        simp [ih (fun e he => hmid e (by simp [he])) h' hok]
      | downloadEnd =>
        simp only [lockOK] at hok
        simp [ih (fun e he => hmid e (by simp [he])) h' hok]
    | right h' =>
      simp only [lockOK] at hok
      exact absurd hok.1 (by simp)

theorem interleave_nil_right {xs : List Ev} {zs : List (Bool × Ev)}
    (h : Interleave xs [] zs) : zs = xs.map (fun e => (true, e)) := by
  induction xs generalizing zs with
  | nil => cases h; rfl
  | cons x xs ih =>
    cases h with
    | left h' => simp [ih h']

theorem interleave_drain_right {mid : List Ev} {xs' : List Ev} {zs : List (Bool × Ev)}
    (hmid : ∀ e ∈ mid, e ≠ Ev.lockAcquire ∧ e ≠ Ev.lockRelease)
    (hint : Interleave (Ev.lockAcquire :: xs') (mid ++ [Ev.lockRelease]) zs)
    (hok : lockOK (some false) zs) :
    zs = (mid ++ [Ev.lockRelease]).map (fun e => (false, e)) ++
      (Ev.lockAcquire :: xs').map (fun e => (true, e)) := by
  induction mid generalizing zs with
  | nil =>
    cases hint with
    | right h' =>
      simp only [lockOK] at hok
      simp [interleave_nil_right h']
    | left h' =>
      simp only [lockOK] at hok
      exact absurd hok.1 (by simp)
  | cons m mid ih =>
    cases hint with
    | right h' =>
      have hm := hmid m (by simp)
      cases m with
      | lockAcquire => exact absurd rfl hm.1
      | lockRelease => exact absurd rfl hm.2
      | downloadStart =>
        simp only [lockOK] at hok
        simp [ih (fun e he => hmid e (by simp [he])) h' hok]
      | downloadEnd =>
        simp only [lockOK] at hok
        simp [ih (fun e he => hmid e (by simp [he])) h' hok]
    | left h' =>
      simp only [lockOK] at hok
      exact absurd hok.1 (by simp)

theorem lock_serializes {mid₁ mid₂ : List Ev} {zs : List (Bool × Ev)}
    (hm₁ : ∀ e ∈ mid₁, e ≠ Ev.lockAcquire ∧ e ≠ Ev.lockRelease)
    (hm₂ : ∀ e ∈ mid₂, e ≠ Ev.lockAcquire ∧ e ≠ Ev.lockRelease)
    (hint : Interleave (Ev.lockAcquire :: mid₁ ++ [Ev.lockRelease])
      (Ev.lockAcquire :: mid₂ ++ [Ev.lockRelease]) zs)
    (hok : lockOK none zs) :
    zs = (Ev.lockAcquire :: mid₁ ++ [Ev.lockRelease]).map (fun e => (true, e)) ++
      (Ev.lockAcquire :: mid₂ ++ [Ev.lockRelease]).map (fun e => (false, e)) ∨
    zs = (Ev.lockAcquire :: mid₂ ++ [Ev.lockRelease]).map (fun e => (false, e)) ++
      (Ev.lockAcquire :: mid₁ ++ [Ev.lockRelease]).map (fun e => (true, e)) := by
  cases hint with
  | left h' =>
    left
    simp only [lockOK] at hok
    simp [interleave_drain_left hm₁ h' hok.2]
  | right h' =>
    right
    simp only [lockOK] at hok
    simp [interleave_drain_right hm₂ h' hok.2]

/-- C10: every `ensure_model_downloaded` call acquires the shared tracker lock
as its first event, releases it as its last event, and performs the artifact
retrieval strictly inside the lock-held region; consequently, under the
mutual-exclusion semantics of the lock, every valid interleaving of two
concurrent calls — for any two participants — is fully serialized: one call's
entire trace (including its download) completes before the other's begins. -/
theorem C10_lock_held_across_download (u₁ u₂ : ModelUpdater) (hk₁ hk₂ : String)
    (zs : List (Bool × Ev))
    (hint : Interleave (ensure_model_downloaded_events u₁ hk₁)
      (ensure_model_downloaded_events u₂ hk₂) zs)
    (hok : lockOK none zs) :
    (∃ mid, ensure_model_downloaded_events u₁ hk₁ =
        Ev.lockAcquire :: mid ++ [Ev.lockRelease] ∧
      (∀ e ∈ mid, e = Ev.downloadStart ∨ e = Ev.downloadEnd) ∧
      ((hk₁ ∉ u₁.tracker.model_downloaded ∧
        dictGet u₁.tracker.miner_hotkey_to_model_metadata_dict hk₁ ≠ none) →
        Ev.downloadStart ∈ mid ∧ Ev.downloadEnd ∈ mid)) ∧
    (zs = (ensure_model_downloaded_events u₁ hk₁).map (fun e => (true, e)) ++
        (ensure_model_downloaded_events u₂ hk₂).map (fun e => (false, e)) ∨
     zs = (ensure_model_downloaded_events u₂ hk₂).map (fun e => (false, e)) ++
        (ensure_model_downloaded_events u₁ hk₁).map (fun e => (true, e))) := by
  obtain ⟨mid₁, he₁, hm₁, hdl₁⟩ := ensure_events_shape u₁ hk₁
  obtain ⟨mid₂, he₂, hm₂, _⟩ := ensure_events_shape u₂ hk₂
  have hm₁' : ∀ e ∈ mid₁, e ≠ Ev.lockAcquire ∧ e ≠ Ev.lockRelease := by
    intro e he
    rcases hm₁ e he with h | h <;> subst h <;> exact ⟨by decide, by decide⟩
  have hm₂' : ∀ e ∈ mid₂, e ≠ Ev.lockAcquire ∧ e ≠ Ev.lockRelease := by
    intro e he
    rcases hm₂ e he with h | h <;> subst h <;> exact ⟨by decide, by decide⟩
  rw [he₁, he₂] at hint
  refine ⟨⟨mid₁, he₁, hm₁, hdl₁⟩, ?_⟩
  rw [he₁, he₂]
  exact lock_serializes hm₁' hm₂' hint hok

theorem C10_witness :
    [(true, Ev.lockAcquire), (true, Ev.downloadStart), (true, Ev.downloadEnd),
     (true, Ev.lockRelease), (false, Ev.lockAcquire), (false, Ev.lockRelease)] =
      (ensure_model_downloaded_events updaterP "alice").map (fun e => (true, e)) ++
        (ensure_model_downloaded_events updaterT "bob").map (fun e => (false, e)) ∨
    [(true, Ev.lockAcquire), (true, Ev.downloadStart), (true, Ev.downloadEnd),
     (true, Ev.lockRelease), (false, Ev.lockAcquire), (false, Ev.lockRelease)] =
      (ensure_model_downloaded_events updaterT "bob").map (fun e => (false, e)) ++
        (ensure_model_downloaded_events updaterP "alice").map (fun e => (true, e)) :=
  (C10_lock_held_across_download updaterP updaterT "alice" "bob"
    [(true, Ev.lockAcquire), (true, Ev.downloadStart), (true, Ev.downloadEnd),
     (true, Ev.lockRelease), (false, Ev.lockAcquire), (false, Ev.lockRelease)]
    (by
      show Interleave
        [Ev.lockAcquire, Ev.downloadStart, Ev.downloadEnd, Ev.lockRelease]
        [Ev.lockAcquire, Ev.lockRelease] _
      exact .left (.left (.left (.left (.right (.right .nil))))))
    (by simp [lockOK])).2

end ModelSync
